import Mathlib

/-!
Verification of the `nextis` assembly execution engine against its
natural-language specification.

The development shallowly embeds the Python sources:
  * `nextis/assembly/models.py`       — data model (`Part`, `SuccessCriteria`,
    `AssemblyStep`, `AssemblyGraph`)
  * `nextis/perception/checks.py`     — the step verifiers
  * `nextis/assembly/sequence_planner.py` — planner, classification and
    Kahn topological sort
  * `nextis/execution/policy_router.py`, `nextis/control/primitives.py`,
    `nextis/execution/types.py`       — step dispatch

Modelling conventions:
  * Python floats are modelled as exact rationals (`ℚ`); the numeric
    thresholds in the code are decimal literals, represented exactly.
  * Python dicts are modelled as association lists in insertion order
    (Python dicts preserve insertion order and have unique keys).
  * `None` becomes `Option.none`; Python truthiness of `None`/`""`/`[]`/`0.0`
    is modelled explicitly at each use site.
  * Exceptions that a function catches or propagates are modelled with
    `Except`.
  * Fields of the source dataclasses that no claim mentions and that no
    modelled code path reads (display colours, CAD file paths, grasp
    points, the free-text `detail` strings of `VerificationResult`, the
    `measured_value` field, camera frames) are omitted from the embedding.
-/

namespace Nextis

/-- A Python parameter value as stored in a step's `primitive_params` dict:
a string, a float, or a list of floats (e.g. a pose). -/
inductive PVal where
  | str (s : String)
  | num (q : ℚ)
  | nums (l : List ℚ)
deriving DecidableEq, Repr

/-- Model of `SuccessCriteria` (models.py lines 56-64): tagged verification rule. -/
structure SuccessCriteria where
  type : String
  threshold : Option ℚ := none
  model : Option String := none
  pattern : Option String := none
deriving DecidableEq, Repr

/-- Model of `Part` (models.py lines 28-53), restricted to the fields the planner
reads: id, assembled position, geometry tag and shape dimensions. -/
structure Part where
  id : String
  position : Option (List ℚ) := none
  geometry : Option String := none
  dimensions : Option (List ℚ) := none
deriving DecidableEq, Repr

/-- Model of `AssemblyStep` (models.py lines 67-101). -/
structure AssemblyStep where
  id : String
  name : String
  part_ids : List String := []
  dependencies : List String := []
  handler : String := "primitive"
  primitive_type : Option String := none
  primitive_params : Option (List (String × PVal)) := none
  policy_id : Option String := none
  success_criteria : SuccessCriteria := { type := "position" }
  max_retries : Nat := 3
deriving DecidableEq, Repr

/-- Model of `AssemblyGraph` (models.py lines 104-125): part catalog, step catalog
and execution order.  The pydantic model performs no cross-reference
validation: `model_validate` only checks field types, so construction is
plain record creation. -/
structure AssemblyGraph where
  id : String
  name : String
  parts : List (String × Part) := []
  steps : List (String × AssemblyStep) := []
  step_order : List String := []
deriving DecidableEq, Repr

/-- Model of `ExecutionData` (perception/types.py lines 14-31), minus the camera
frame (the torch classifier checker is not embedded). -/
structure ExecutionData where
  final_position : List ℚ := []
  force_history : List ℚ := []
  peak_force : ℚ := 0
  final_force : ℚ := 0
  duration_ms : ℚ := 0
deriving DecidableEq, Repr

/-- Model of `VerificationResult` (perception/types.py lines 34-50), keeping the
fields the claims are about (`passed`, `confidence`, `threshold`); the
free-text `detail` and the `measured_value` are omitted. -/
structure VerificationResult where
  passed : Bool
  confidence : ℚ
  threshold : Option ℚ := none
deriving DecidableEq, Repr

/-- Model of `StepResult` (execution/types.py lines 12-26).  Note the dataclass
declares exactly these four fields: it has no telemetry fields. -/
structure StepResult where
  success : Bool
  duration_ms : ℚ
  handler_used : String
  error_message : Option String := none
deriving DecidableEq, Repr

/-- Model of `PrimitiveResult` (control/primitives.py lines 23-39): the result type
returned by every motion primitive. -/
structure PrimitiveResult where
  success : Bool
  actual_force : ℚ := 0
  actual_position : List ℚ := []
  duration_ms : ℚ := 0
  error_message : Option String := none
deriving DecidableEq, Repr

/-! ### Step verifiers (perception/checks.py) -/

/-- Look up a key in a params dict and return its value when it is a list
of numbers (the only shape `target_pose` takes). -/
def getNums (params : List (String × PVal)) (key : String) : Option (List ℚ) :=
  match params.find? (fun p => p.1 == key) with
  | some (_, PVal.nums l) => some l
  | _ => none

/-- Squared Euclidean distance between the first three coordinates of two
pose vectors.  checks.py line 66 computes `np.linalg.norm(target - actual)`
and compares it with the tolerance; since both sides are non-negative the
comparison `distance <= tolerance` is equivalent to
`0 ≤ tolerance ∧ distanceSq ≤ tolerance²`, which avoids square roots. -/
def posDistSq (target actual : List ℚ) : ℚ :=
  ((target.take 3).zipWith (fun a b => (a - b) ^ 2) (actual.take 3)).sum

/-- Model of `check_position` (checks.py lines 34-77).  Tolerance is
`step.success_criteria.threshold or 2.0`: Python `or` falls back to the
2.0 default when the threshold is `None` **or** `0.0` (falsy). -/
def checkPosition (step : AssemblyStep) (data : ExecutionData) : VerificationResult :=
  let params := step.primitive_params.getD []
  match getNums params "target_pose" with
  | none => { passed := true, confidence := 3/10 }
  | some tp =>
    if tp.length < 3 then { passed := true, confidence := 3/10 }
    else if data.final_position.length < 3 then
      { passed := false, confidence := 4/5 }
    else
      let tol : ℚ := match step.success_criteria.threshold with
        | none => 2
        | some q => if q = 0 then 2 else q
      let pass := decide (0 ≤ tol ∧ posDistSq tp data.final_position ≤ tol ^ 2)
      { passed := pass, confidence := if pass then 9/10 else 17/20, threshold := some tol }

/-- Model of `check_force_threshold` (checks.py lines 85-110).  Only `None` skips
(the code tests `threshold is None`, not truthiness). -/
def checkForceThreshold (step : AssemblyStep) (data : ExecutionData) : VerificationResult :=
  match step.success_criteria.threshold with
  | none => { passed := true, confidence := 3/10 }
  | some th =>
    let pass := decide (th ≤ data.peak_force)
    { passed := pass, confidence := if pass then 19/20 else 9/10, threshold := some th }

/-- Index of the first maximal element (`np.argmax`), auxiliary loop. -/
def argmaxAux : List ℚ → Nat → ℚ → Nat → Nat
  | [], _, _, best => best
  | x :: xs, i, bv, best =>
    if bv < x then argmaxAux xs (i + 1) x i else argmaxAux xs (i + 1) bv best

/-- Index of the first maximal element of a list (`np.argmax`). -/
def argmaxIdx : List ℚ → Nat
  | [] => 0
  | x :: xs => argmaxAux xs 1 x 0

/-- Minimum of a list, 0 for the empty list (`np.min`; only applied to
non-empty slices in the embedded code). -/
def listMinD : List ℚ → ℚ
  | [] => 0
  | x :: xs => xs.foldl min x

/-- Maximum of a list, 0 for the empty list (`np.max`). -/
def listMaxD : List ℚ → ℚ
  | [] => 0
  | x :: xs => xs.foldl max x

/-- Model of `_detect_snap_fit` (checks.py lines 118-151): global peak above 0.1 N
followed by a >50 % drop within the next 5 samples. -/
def detectSnapFit (force : List ℚ) (threshold : Option ℚ) : VerificationResult :=
  if force.length < 10 then { passed := false, confidence := 2/5 }
  else
    let peakIdx := argmaxIdx force
    let peakVal := (force.get? peakIdx).getD 0
    if peakVal < 1/10 then { passed := false, confidence := 7/10 }
    else
      let windowEnd := min (peakIdx + 6) force.length
      let postPeak := (force.take windowEnd).drop (peakIdx + 1)
      if postPeak.isEmpty then { passed := false, confidence := 1/2 }
      else
        let minAfter := listMinD postPeak
        let dropRatio := if 0 < peakVal then (peakVal - minAfter) / peakVal else 0
        let pass := decide (1/2 < dropRatio)
        { passed := pass, confidence := if pass then 17/20 else 7/10, threshold := threshold }

/-- Count the local maxima strictly above `floor` (a sample strictly
greater than both neighbours), scanning consecutive triples. -/
def countSigPeaks : List ℚ → ℚ → Nat
  | a :: b :: c :: rest, floor =>
    (if a < b ∧ c < b ∧ floor < b then 1 else 0) + countSigPeaks (b :: c :: rest) floor
  | _, _ => 0

/-- Model of `_detect_meshing` (checks.py lines 154-179): at least 3 local maxima
above 10 % of the series maximum. -/
def detectMeshing (force : List ℚ) (_threshold : Option ℚ) : VerificationResult :=
  if force.length < 10 then { passed := false, confidence := 2/5 }
  else
    let noiseFloor := listMaxD force * (1/10)
    let peaks := countSigPeaks force noiseFloor
    let pass := decide (3 ≤ peaks)
    { passed := pass, confidence := if pass then 4/5 else 3/5, threshold := some 3 }

/-- Sample-to-sample differences of a force series (`np.diff`). -/
def gradList (force : List ℚ) : List ℚ :=
  force.tail.zipWith (fun a b => a - b) force

/-- Model of `_detect_press_fit` (checks.py lines 182-209): near-monotonic rise
(≥ 70 % of the deltas at least −0.1) and, when a positive target force is
declared, final sample at least the target.  `threshold or 0.0` again
treats `None` and `0.0` alike. -/
def detectPressFit (force : List ℚ) (threshold : Option ℚ) : VerificationResult :=
  if force.length < 5 then { passed := false, confidence := 2/5 }
  else
    let grad := gradList force
    let goodFrac : ℚ := ((grad.countP (fun g => -1/10 ≤ g) : ℚ)) / (grad.length : ℚ)
    let finalForce := (force.getLast?).getD 0
    let target : ℚ := match threshold with
      | none => 0
      | some t => if t = 0 then 0 else t
    let monotonic := decide (7/10 ≤ goodFrac)
    let reached := if 0 < target then decide (target ≤ finalForce) else true
    let pass := monotonic && reached
    { passed := pass, confidence := if pass then 17/20 else 13/20, threshold := some target }

/-- Model of `check_force_signature` (checks.py lines 212-254).  `if not pattern`
is true for `None` and for the empty string; an empty force history fails
with confidence 0.6; an unknown pattern passes with confidence 0.3. -/
def checkForceSignature (step : AssemblyStep) (data : ExecutionData) : VerificationResult :=
  let patt := step.success_criteria.pattern
  match patt with
  | none => { passed := true, confidence := 3/10 }
  | some p =>
    if p = "" then { passed := true, confidence := 3/10 }
    else if data.force_history.isEmpty then { passed := false, confidence := 3/5 }
    else
      let th := step.success_criteria.threshold
      if p = "snap_fit" then detectSnapFit data.force_history th
      else if p = "meshing" then detectMeshing data.force_history th
      else if p = "press_fit" then detectPressFit data.force_history th
      else { passed := true, confidence := 3/10 }

/-! ### Policy router and primitive library
(execution/policy_router.py, control/primitives.py)

External collaborators — the robot handle, the registered primitive
coroutines' wall-clock behaviour, the policy loader and the policy
inference loop — are abstracted as parameters of a `RouterEnv`; wall-clock
durations (`time.monotonic`) are a parameter `elapsed`.  Everything the
router itself does is embedded. -/

/-- Python truthiness of an `Optional[str]`: `None` and `""` are falsy
(`if not step.primitive_type`, policy_router.py line 72). -/
def strFalsy : Option String → Bool
  | none => true
  | some s => s == ""

/-- Python truthiness of an `Optional[dict]`: `None` and `{}` are falsy
(`params or {}`, primitives.py line 343). -/
def dictFalsy : Option (List (String × PVal)) → Bool
  | none => true
  | some [] => true
  | some (_ :: _) => false

/-- Python dict assignment `d[k] = v`: replaces in place when the key is
present, otherwise appends. -/
def dictInsert (l : List (String × PVal)) (k : String) (v : PVal) : List (String × PVal) :=
  if l.any (fun p => p.1 == k) then l.map (fun p => if p.1 == k then (k, v) else p)
  else l ++ [(k, v)]

/-- The environment of a `PolicyRouter`: its `PrimitiveLibrary`'s speed
factor and registry, the behaviour of the registered primitive coroutines
(`primExec name params`, which may raise — `Except.error` — or return a
`PrimitiveResult`), the policy loader keyed by (assembly id, step id)
returning an optional checkpoint, the outcome of the policy inference
loop, and the active assembly id. -/
structure RouterEnv where
  speed : ℚ := 1
  registered : List String := ["move_to", "pick", "place", "guarded_move", "linear_insert", "screw", "press_fit"]
  primExec : String → List (String × PVal) → Except String PrimitiveResult
  loadPolicy : String → String → Option Nat := fun _ _ => none
  policyExec : Nat → Except String Unit := fun _ => Except.ok ()
  assemblyId : String := ""

/-- Model of `PrimitiveLibrary.run` (primitives.py lines 321-346).  The registry is
consulted first (`AssemblyError` for an unknown name, before any
mutation); then `params["_speed_factor"] = self._speed` writes into the
**caller's** dict object whenever a non-empty dict was passed, and the
primitive is invoked.  Returns the outcome together with the params dict
contents after the call. -/
def libraryRun (env : RouterEnv) (name : String) (params : List (String × PVal)) :
    Except String PrimitiveResult × List (String × PVal) :=
  if env.registered.contains name then
    let ps := dictInsert params "_speed_factor" (PVal.num env.speed)
    (env.primExec name ps, ps)
  else (Except.error ("Unknown primitive: " ++ name), params)

/-- The message of the `AttributeError` raised at policy_router.py line 93:
the success branch builds the `StepResult` from
`result.actual_force, result.actual_position, result.force_history`, but
`PrimitiveResult` (primitives.py lines 23-39) declares no `force_history`
attribute, so evaluating the keyword arguments raises before the
constructor is called (and `StepResult` itself declares none of those
three keywords either).  The `except Exception` at line 95 catches it. -/
def attrErrorMsg : String := "'PrimitiveResult' object has no attribute 'force_history'"

/-- Model of `PolicyRouter._run_primitive` (policy_router.py lines 70-102), with
the caller-visible mutation of `step.primitive_params` made explicit: the
returned step carries the params dict contents after the call whenever
the step held a non-empty dict (Python aliasing; a falsy `params` is
replaced by a fresh dict inside `run`, so the step is untouched). -/
def runPrimitiveStep (env : RouterEnv) (elapsed : ℚ) (step : AssemblyStep) :
    StepResult × AssemblyStep :=
  if strFalsy step.primitive_type then
    ({ success := false, duration_ms := elapsed, handler_used := "primitive",
       error_message := some ("Step " ++ step.id ++ " has no primitive_type set") }, step)
  else
    let pt := step.primitive_type.getD ""
    let out := libraryRun env pt (step.primitive_params.getD [])
    let step' := if dictFalsy step.primitive_params then step
      else { step with primitive_params := some out.2 }
    match out.1 with
    | Except.error e =>
      ({ success := false, duration_ms := elapsed, handler_used := "primitive",
         error_message := some e }, step')
    | Except.ok _ =>
      -- success path: evaluating `result.force_history` raises AttributeError
      ({ success := false, duration_ms := elapsed, handler_used := "primitive",
         error_message := some attrErrorMsg }, step')

/-- Model of `PolicyRouter._run_policy` (policy_router.py lines 104-156): a missing
checkpoint is a first-class failed result, not an exception; with a
checkpoint, the inference loop's outcome decides success (any exception
yields a failed result carrying its text). -/
def runPolicyStep (env : RouterEnv) (elapsed : ℚ) (step : AssemblyStep) :
    StepResult × AssemblyStep :=
  match env.loadPolicy env.assemblyId step.id with
  | none =>
    ({ success := false, duration_ms := elapsed, handler_used := "policy",
       error_message := some ("No trained policy for step " ++ step.id) }, step)
  | some ck =>
    match env.policyExec ck with
    | Except.ok _ =>
      ({ success := true, duration_ms := elapsed, handler_used := "policy" }, step)
    | Except.error e =>
      ({ success := false, duration_ms := elapsed, handler_used := "policy",
         error_message := some e }, step)

/-- Model of `PolicyRouter.dispatch` (policy_router.py lines 46-68).  Returns the
`StepResult` together with the (possibly mutated) step. -/
def dispatch (env : RouterEnv) (elapsed : ℚ) (step : AssemblyStep) :
    StepResult × AssemblyStep :=
  if step.handler == "primitive" then runPrimitiveStep env elapsed step
  else if step.handler == "policy" then runPolicyStep env elapsed step
  else
    ({ success := false, duration_ms := elapsed, handler_used := step.handler,
       error_message := some ("Unknown handler: " ++ step.handler) }, step)

/-! ### Sequence planner: classification (sequence_planner.py lines 145-209) -/

/-- Does `needle` occur at the start of `hay` (character lists)? -/
def charsStart : List Char → List Char → Bool
  | [], _ => true
  | _ :: _, [] => false
  | a :: as, b :: bs => a == b && charsStart as bs

/-- Does `needle` occur anywhere in `hay` (character lists)?  Python
`needle in hay` for strings. -/
def charsSub : List Char → List Char → Bool
  | n, [] => n.isEmpty
  | n, h :: t => charsStart n (h :: t) || charsSub n t

/-- Python substring test `needle in hay`. -/
def strContains (hay needle : String) : Bool :=
  charsSub needle.toList hay.toList

/-- The keyword list of sequence_planner.py line 181. -/
def policyKeywords : List String := ["gear", "bearing", "ring", "snap", "clip"]

/-- Model of `any(kw in part.id.lower() for kw in ...)`. -/
def idHasPolicyKeyword (pid : String) : Bool :=
  policyKeywords.any (fun kw => strContains pid.toLower kw)

/-- Model of `part.dimensions or [0.05, 0.05, 0.05]` (Python `or`: `None` and the
empty list both fall back to the default). -/
def effDims (p : Part) : List ℚ :=
  match p.dimensions with
  | none => [1/20, 1/20, 1/20]
  | some [] => [1/20, 1/20, 1/20]
  | some l => l

/-- Model of `part.geometry or "box"` (`None` and `""` fall back). -/
def effGeo (p : Part) : String :=
  match p.geometry with
  | none => "box"
  | some s => if s = "" then "box" else s

/-- Model of `_part_volume` (sequence_planner.py lines 376-391): sphere for one
dimension, cylinder for two, box product for three or more, 0 otherwise;
π is the literal `3.14159`. -/
def partVolume (p : Part) : ℚ :=
  match effDims p with
  | [r] => 4/3 * (314159/100000) * r ^ 3
  | [r, h] => 314159/100000 * r ^ 2 * h
  | w :: h :: d :: _ => w * h * d
  | [] => 0

/-- Model of `SequencePlanner._classify_assembly_action` (sequence_planner.py lines
145-209): handler, primitive type and success criteria for a part's
assemble step, given the set of part ids it contacts. -/
def classifyAssemblyAction (p : Part) (contacts : List String) :
    String × Option String × SuccessCriteria :=
  let geo := effGeo p
  let dims := effDims p
  let vol := partVolume p
  if geo = "cylinder" ∧ contacts ≠ [] then
    if 2 ≤ dims.length ∧ dims.headD 0 < 8/1000 then
      ("policy", none, { type := "classifier" })
    else
      ("primitive", some "linear_insert", { type := "force_signature", pattern := some "snap_fit" })
  else if 3 ≤ contacts.length then
    ("policy", none, { type := "classifier" })
  else if idHasPolicyKeyword p.id ∧ contacts ≠ [] then
    ("policy", none, { type := "force_signature", pattern := some "meshing" })
  else if vol < 1/1000000 then
    ("primitive", some "press_fit", { type := "force_threshold", threshold := some 15 })
  else if geo = "cylinder" ∧ 2 ≤ dims.length ∧ dims.headD 0 < 5/1000 then
    ("policy", none, { type := "classifier" })
  else
    ("primitive", some "place", { type := "position" })

/-- The classification rule exactly as claim C6 (spec §4.2 step 5) words
it, as an independent definition: a fixed precedence of seven cases, with
"radius" the first entry of the (defaulted) dimensions and "volume" the
spec's shape formula (§4.2 step 2a, identical to `_part_volume`).  The
sixth case is written with the claim's explicit "without contacts"
condition. -/
def claimClassify (p : Part) (contacts : List String) :
    String × Option String × SuccessCriteria :=
  let radius := (effDims p).headD 0
  if effGeo p = "cylinder" ∧ contacts ≠ [] ∧ radius < 8/1000 then
    ("policy", none, { type := "classifier" })
  else if effGeo p = "cylinder" ∧ contacts ≠ [] then
    ("primitive", some "linear_insert", { type := "force_signature", pattern := some "snap_fit" })
  else if 3 ≤ contacts.length then
    ("policy", none, { type := "classifier" })
  else if idHasPolicyKeyword p.id ∧ contacts ≠ [] then
    ("policy", none, { type := "force_signature", pattern := some "meshing" })
  else if partVolume p < 1/1000000 then
    ("primitive", some "press_fit", { type := "force_threshold", threshold := some 15 })
  else if effGeo p = "cylinder" ∧ contacts = [] ∧ radius < 5/1000 then
    ("policy", none, { type := "classifier" })
  else
    ("primitive", some "place", { type := "position" })

/-! ### Sequence planner: `plan` (sequence_planner.py lines 37-143)

`plan` first rejects an empty part catalog (line 53), builds the contact
adjacency and the geometric assembly order (pure computations, lines
56-62), and then executes `base.is_base = True` (line 69).  `Part`
(models.py lines 28-53) is a pydantic-v2 `BaseModel` that declares no
`is_base` field and whose `model_config` does not set `extra="allow"`;
pydantic v2's `BaseModel.__setattr__` therefore raises
`ValueError('"Part" object has no field "is_base"')` on that line, before
any step is emitted.  Every call with a non-empty catalog raises, so the
remainder of `plan` (steps, topological sort, layout) is unreachable and
the embedding maps it to the raised error. -/

/-- Modelled from the spec: `ParseResult` — `nextis/assembly/cad_parser.py`
is not under src/; spec §6 gives its shape as
`ParseResult{graph, contacts}` with contacts a list of (part-id, part-id)
pairs. -/
structure ParseResult where
  graph : AssemblyGraph
  contacts : List (String × String) := []

/-- The message of the pydantic `ValueError` raised by
`base.is_base = True`. -/
def isBaseErrorMsg : String := "\"Part\" object has no field \"is_base\""

/-- Model of `SequencePlanner.plan` (sequence_planner.py lines 37-143), embedded up
to its first effect on every input: `AssemblyError` for an empty part
catalog, otherwise the pydantic `ValueError` described above. -/
def plan (p : ParseResult) : Except String AssemblyGraph :=
  if p.graph.parts.isEmpty then Except.error "Cannot plan assembly with no parts"
  else Except.error isBaseErrorMsg

/-! ### Topological sort (sequence_planner.py lines 211-248)

`_topological_sort` receives the step dict and only reads each step's id
and dependency list, so the embedding works on `List (String × List String)`
(insertion-ordered, unique keys — a Python dict).  Python sorts strings
lexicographically by code point; `strLtB`/`strLeB` implement exactly that
order on `Char.toNat`. -/

/-- Strict code-point lexicographic order on character lists. -/
def charsLt : List Char → List Char → Bool
  | [], [] => false
  | [], _ :: _ => true
  | _ :: _, [] => false
  | a :: as, b :: bs =>
    if a.toNat < b.toNat then true
    else if b.toNat < a.toNat then false
    else charsLt as bs

/-- Python string `<`: code-point lexicographic. -/
def strLtB (a b : String) : Bool := charsLt a.data b.data

/-- Python string `<=` (total order: `a ≤ b ↔ ¬ b < a`). -/
def strLeB (a b : String) : Bool := !(strLtB b a)

/-- Python `sorted`/`list.sort()` on strings: a stable sort by the
code-point order (insertion sort — stable, and the inputs sorted by the
code have distinct elements, so any stable sort yields this result). -/
def sortStrs (l : List String) : List String :=
  List.insertionSort (fun a b => strLeB a b = true) l

/-- A step dict reduced to what the sort reads: id and dependency list. -/
abbrev NodeList := List (String × List String)

/-- The dict's keys, in insertion order. -/
def keysOf (ns : NodeList) : List String := ns.map Prod.fst

/-- The dependency list stored under a key (the unique entry of a dict). -/
def depsOf (ns : NodeList) (k : String) : List String :=
  match ns.find? (fun p => p.1 == k) with
  | some p => p.2
  | none => []

/-- Model of `in_degree` after the build loop (lines 224-231), as a lookup
function on the dict's keys: `in_degree[k]` is the number of dependency
occurrences of `k`'s entry that are themselves keys (`if dep in steps`),
as a Python int.  (The loop only ever reads and writes in-dict keys, so a
total function agreeing with the dict on those keys is a faithful model;
off-dict keys are given 0.) -/
def degFun (ns : NodeList) : String → Int :=
  fun k => ((depsOf ns k).countP (fun d => (keysOf ns).contains d) : Int)

/-- Model of `in_degree[child] -= 1`: a pointwise update at one key. -/
def decDeg (deg : String → Int) (c : String) : String → Int :=
  fun k => if k = c then deg k - 1 else deg k

/-- Every key `sid` whose dependency list mentions `d`, once per
occurrence, in dict order. -/
def childrenCore (l : NodeList) (d : String) : List String :=
  l.flatMap (fun p => List.replicate (p.2.count d) p.1)

/-- Model of `children[d]` after the build loop: populated only for in-dict
dependencies (`if dep in steps`); the defaultdict yields `[]`
otherwise. -/
def childrenOf (ns : NodeList) (d : String) : List String :=
  if (keysOf ns).contains d then childrenCore ns d else []

/-- One iteration of `for child in sorted(children[node])` (lines
240-243): decrement the child's in-degree and append it to the queue when
the in-degree reaches exactly 0. -/
def processChild (st : (String → Int) × List String) (c : String) :
    (String → Int) × List String :=
  let deg2 := decDeg st.1 c
  (deg2, if deg2 c == 0 then st.2 ++ [c] else st.2)

/-- The `while queue` loop (lines 237-243): pop the queue head, emit it,
process its children in sorted order.  The loop pops one node per
iteration and a node is enqueued at most once (its in-degree only
decreases and an append needs the exact transition to 0), so
`ns.length + 1` iterations always suffice to drain the queue; the fuel
never runs out on dict inputs. -/
def kahnLoop (children : String → List String) :
    Nat → (String → Int) → List String → List String → List String
  | 0, _, _, res => res
  | _ + 1, _, [], res => res
  | fuel + 1, deg, node :: rest, res =>
    let st := (sortStrs (children node)).foldl processChild (deg, rest)
    kahnLoop children fuel st.1 st.2 (res ++ [node])

/-- Model of `SequencePlanner._topological_sort` (lines 211-248): Kahn's algorithm
with a FIFO queue seeded with the lexicographically sorted zero-in-degree
ids (`queue.sort()`, line 234); raises `AssemblyError` when fewer ids are
ordered than exist. -/
def kahn (ns : NodeList) : Except String (List String) :=
  let deg := degFun ns
  let q0 := sortStrs ((keysOf ns).filter (fun k => deg k == 0))
  let r := kahnLoop (childrenOf ns) (ns.length + 1) deg q0 []
  if r.length = ns.length then Except.ok r
  else Except.error "Cycle detected in step dependency graph"

/-- Model of `_topological_sort` applied to a step dict. -/
def topologicalSort (steps : List (String × AssemblyStep)) : Except String (List String) :=
  kahn (steps.map (fun p => (p.1, p.2.dependencies)))

/-- The number of dependency occurrences of `k` that are in-dict and not
yet emitted — the quantity `in_degree[k]` tracks during the loop. -/
def missingCount (ns : NodeList) (done : List String) (k : String) : Nat :=
  (depsOf ns k).countP (fun d => (keysOf ns).contains d && !(done.contains d))

/-- The zero-in-degree ids remaining after the ids in `done` have been
emitted: in the dict, not yet emitted, all in-dict dependencies emitted.
(Spec-side notion, used to state claim C4.) -/
def zeroInDeg (ns : NodeList) (done : List String) : List String :=
  (keysOf ns).filter (fun k =>
    !(done.contains k) &&
      (depsOf ns k).all (fun d => !((keysOf ns).contains d) || done.contains d))

/-- Claim C4's property of an output order, word for word: at each
position the chosen id is the lexicographic minimum of the zero-in-degree
ids remaining at that point. -/
def isMinSelectOrder (ns : NodeList) (r : List String) : Prop :=
  ∀ i (h : i < r.length),
    r.get ⟨i, h⟩ ∈ zeroInDeg ns (r.take i) ∧
      ∀ x ∈ zeroInDeg ns (r.take i), strLeB (r.get ⟨i, h⟩) x

instance (ns : NodeList) (r : List String) : Decidable (isMinSelectOrder ns r) := by
  unfold isMinSelectOrder
  exact Nat.decidableBallLT _ _

/-! ### Concrete inputs used by counterexamples and witnesses -/

/-- A step whose position criteria carry a declared target pose. -/
def posStep : AssemblyStep :=
  { id := "step_003", name := "Place bracket", handler := "primitive",
    primitive_type := some "place",
    primitive_params := some [("target_pose", PVal.nums [0, 0, 0])],
    success_criteria := { type := "position" } }

/-- Variant of `posStep` with a declared zero tolerance. -/
def zeroTolStep : AssemblyStep :=
  { posStep with success_criteria := { type := "position", threshold := some 0 } }

/-- Telemetry with no final position and no force history. -/
def emptyTelemetry : ExecutionData := {}

/-- Telemetry with a final position 1 unit away from `posStep`'s target. -/
def offByOneTelemetry : ExecutionData := { final_position := [1, 0, 0] }

/-- A step with snap-fit force-signature criteria. -/
def snapStep : AssemblyStep :=
  { id := "step_005", name := "Insert cap", handler := "primitive",
    primitive_type := some "linear_insert",
    success_criteria := { type := "force_signature", pattern := some "snap_fit" } }

/-- A step with press-fit force-signature criteria and a 15 N target. -/
def pressStep : AssemblyStep :=
  { id := "step_007", name := "Press pin", handler := "primitive",
    primitive_type := some "press_fit",
    success_criteria := { type := "force_signature", threshold := some 15,
                          pattern := some "press_fit" } }

/-- A monotonically rising force series of a single sample reaching 20 N. -/
def shortRise : ExecutionData := { force_history := [20], peak_force := 20, final_force := 20 }

/-- A monotonically rising force series of five samples reaching 20 N. -/
def longRise : ExecutionData :=
  { force_history := [1, 5, 9, 14, 20], peak_force := 20, final_force := 20 }

/-- A router environment whose primitive executor always succeeds and
whose policy loader has no checkpoints. -/
def stubEnv : RouterEnv :=
  { primExec := fun _ _ => Except.ok
      { success := true, actual_force := 1/2, actual_position := [0, 0, 0], duration_ms := 100 } }

/-- A primitive step carrying a non-empty params dict. -/
def pickStep : AssemblyStep :=
  { id := "step_002", name := "Pick gear_1", handler := "primitive",
    primitive_type := some "pick",
    primitive_params := some [("part_id", PVal.str "gear_1")],
    success_criteria := { type := "force_threshold", threshold := some (1/2) } }

/-- A policy step (no trained checkpoint exists in `stubEnv`). -/
def policyStep : AssemblyStep :=
  { id := "step_004", name := "Assemble gear_1", handler := "policy",
    success_criteria := { type := "classifier" } }

/-- A small cylinder part with [radius, height] dimensions. -/
def pinPart : Part :=
  { id := "pin_1", position := some [0, 0, 0], geometry := some "cylinder",
    dimensions := some [4/1000, 2/100] }

/-- C4's counterexample dict: `a` depends on `b`; `b` and `c` are free. -/
def fifoNodes : NodeList := [("a", ["b"]), ("b", []), ("c", [])]

/-- C5's counterexample step dict: a single step with an unknown
dependency id. -/
def ghostSteps : List (String × AssemblyStep) :=
  [("s1", { id := "s1", name := "Place base", dependencies := ["ghost"] })]

/-- A one-part catalog for exercising `plan`. -/
def onePartParse : ParseResult :=
  { graph := { id := "asm_1", name := "Assembly", parts := [("p1", { id := "p1" })] } }

/-! ## Theorems -/

/-- Claim C1: for every non-empty part catalog, `SequencePlanner.plan`
was claimed to return a graph with a valid topological `step_order`.  The
code instead raises on every such input: line 69 (`base.is_base = True`)
sets an undeclared field on the pydantic `Part` model, which raises
`ValueError` before any step is emitted, so `plan` never returns a graph
at all. -/
theorem c1_plan_always_raises (pr : ParseResult) (h : pr.graph.parts ≠ []) :
    plan pr = Except.error isBaseErrorMsg := by
  unfold plan
  simp [List.isEmpty_iff, h]

/-- Claim C1 witness: `plan` on a concrete one-part catalog raises the
pydantic error. -/
theorem c1_plan_always_raises_witness :
    plan onePartParse = Except.error isBaseErrorMsg :=
  c1_plan_always_raises onePartParse (by decide)

/-- Claim C7: a policy-handler step with no trained checkpoint yields a
failed `StepResult` whose message names the missing trained policy (and
no exception: `dispatch` returns a value on this path). -/
theorem c7_missing_policy_failed_result (env : RouterEnv) (elapsed : ℚ)
    (step : AssemblyStep) (h : step.handler = "policy")
    (hload : env.loadPolicy env.assemblyId step.id = none) :
    (dispatch env elapsed step).1 =
      { success := false, duration_ms := elapsed, handler_used := "policy",
        error_message := some ("No trained policy for step " ++ step.id) } := by
  unfold dispatch runPolicyStep
  simp [h, hload]

/-- Claim C7 witness at a concrete step and environment. -/
theorem c7_missing_policy_failed_result_witness :
    (dispatch stubEnv 250 policyStep).1 =
      { success := false, duration_ms := 250, handler_used := "policy",
        error_message := some "No trained policy for step step_004" } :=
  c7_missing_policy_failed_result stubEnv 250 policyStep rfl rfl

/-- Claim C3: a primitive-handler step whose registered executor returns
success was claimed to yield `success = true` with the executor's
telemetry.  Instead the success branch of `_run_primitive` evaluates
`result.force_history` — an attribute `PrimitiveResult` does not declare —
so Python raises `AttributeError`, the `except` turns it into a *failed*
result, and no telemetry is carried (`StepResult` has no telemetry
fields). -/
theorem c3_success_lost_to_attribute_error (env : RouterEnv) (elapsed : ℚ)
    (step : AssemblyStep) (r : PrimitiveResult) (h : step.handler = "primitive")
    (hpt : strFalsy step.primitive_type = false)
    (hreg : env.registered.contains (step.primitive_type.getD "") = true)
    (hexec : env.primExec (step.primitive_type.getD "")
        (dictInsert (step.primitive_params.getD []) "_speed_factor" (PVal.num env.speed)) =
      Except.ok r)
    (_hsucc : r.success = true) :
    (dispatch env elapsed step).1 =
      { success := false, duration_ms := elapsed, handler_used := "primitive",
        error_message := some attrErrorMsg } := by
  have hreg' : step.primitive_type.getD "" ∈ env.registered := by
    simpa using hreg
  unfold dispatch runPrimitiveStep libraryRun
  simp [h, hpt, hreg', hexec]

/-- Claim C3 witness: concrete successful execution of a registered
primitive still comes back `success = false` with the attribute error. -/
theorem c3_success_lost_to_attribute_error_witness :
    (dispatch stubEnv 100 pickStep).1 =
      { success := false, duration_ms := 100, handler_used := "primitive",
        error_message := some attrErrorMsg } :=
  c3_success_lost_to_attribute_error stubEnv 100 pickStep
    { success := true, actual_force := 1/2, actual_position := [0, 0, 0], duration_ms := 100 }
    rfl rfl rfl rfl rfl

/-- Claim C9 counterexample: dispatching a concrete primitive step *does*
mutate the step — `PrimitiveLibrary.run` writes `_speed_factor` into the
caller's `primitive_params` dict (primitives.py line 344 operates on the
same object the step holds). -/
theorem c9_dispatch_mutates_counterexample :
    (dispatch stubEnv 100 pickStep).2 ≠ pickStep := by
  decide

/-- Claim C9 amended: dispatch leaves every step field unchanged *except*
that, when the step is a primitive step with a non-empty (truthy)
`primitive_params` dict and a registered primitive type, the key
`_speed_factor` is inserted into that dict; in every other case the step
is returned unchanged. -/
theorem c9_dispatch_mutation_characterized (env : RouterEnv) (elapsed : ℚ)
    (step : AssemblyStep) :
    (dispatch env elapsed step).2 =
      if step.handler = "primitive" ∧ strFalsy step.primitive_type = false ∧
          env.registered.contains (step.primitive_type.getD "") = true ∧
          dictFalsy step.primitive_params = false then
        { step with primitive_params := some (dictInsert (step.primitive_params.getD []) "_speed_factor" (PVal.num env.speed)) }
      else step := by
  unfold dispatch runPrimitiveStep runPolicyStep libraryRun
  by_cases h : step.handler = "primitive"
  · simp only [h]
    by_cases hpt : strFalsy step.primitive_type = false
    · by_cases hreg : step.primitive_type.getD "" ∈ env.registered
      · have hreg' : env.registered.contains (step.primitive_type.getD "") = true := by
          simpa using hreg
        by_cases hdf : dictFalsy step.primitive_params = false
        · cases hex : env.primExec (step.primitive_type.getD "")
            (dictInsert (step.primitive_params.getD []) "_speed_factor" (PVal.num env.speed)) with
          | ok r => simp [hpt, hreg, hreg', hdf, hex, h]
          | error e => simp [hpt, hreg, hreg', hdf, hex, h]
        · have hdf' : dictFalsy step.primitive_params = true := by
            revert hdf; cases dictFalsy step.primitive_params <;> simp
          cases hex : env.primExec (step.primitive_type.getD "")
            (dictInsert (step.primitive_params.getD []) "_speed_factor" (PVal.num env.speed)) with
          | ok r => simp [hpt, hreg, hdf', hex, h]
          | error e => simp [hpt, hreg, hdf', hex, h]
      · have hreg' : env.registered.contains (step.primitive_type.getD "") = false := by
          simpa using hreg
        -- unknown primitive: `run` raises before the mutation, so the
        -- caller-visible dict contents are unchanged
        by_cases hdf : dictFalsy step.primitive_params = false
        · have hsome : ∃ l, step.primitive_params = some l ∧ l ≠ [] := by
            revert hdf
            cases hps : step.primitive_params with
            | none => simp [dictFalsy]
            | some l => cases l <;> simp [dictFalsy]
          obtain ⟨l, hl, _⟩ := hsome
          have heta : ({ step with primitive_params := some l } : AssemblyStep) = step := by
            rw [← hl]
          rw [h] at heta
          simp [hpt, hreg, hreg', hdf, hl, heta]
        · have hdf' : dictFalsy step.primitive_params = true := by
            revert hdf; cases dictFalsy step.primitive_params <;> simp
          simp [hpt, hreg, hreg', hdf']
    · have hpt' : strFalsy step.primitive_type = true := by
        revert hpt; cases strFalsy step.primitive_type <;> simp
      simp [hpt']
  · by_cases hpol : step.handler = "policy"
    · simp only [h, hpol]
      cases hld : env.loadPolicy env.assemblyId step.id with
      | none => simp [h, hld, hpol]
      | some ck =>
        cases hpe : env.policyExec ck with
        | ok u => simp [h, hld, hpe, hpol]
        | error e => simp [h, hld, hpe, hpol]
    · simp [h, hpol]

/-- Claim C2 counterexample: with criteria present but the prerequisite
telemetry missing, the checkers return `passed = false`, not the claimed
low-confidence pass — a position step with a target pose but no final
position fails with confidence 0.8, and a snap-fit step with an empty
force history fails with confidence 0.6. -/
theorem c2_missing_telemetry_counterexample :
    (checkPosition posStep emptyTelemetry).passed = false ∧
      (checkPosition posStep emptyTelemetry).confidence = 4/5 ∧
      (checkForceSignature snapStep emptyTelemetry).passed = false ∧
      (checkForceSignature snapStep emptyTelemetry).confidence = 3/5 := by
  exact ⟨rfl, rfl, rfl, rfl⟩

/-- Claim C2 amended: missing *criteria* fields are a low-confidence pass
(confidence 0.3), but missing prerequisite *telemetry* with criteria
present is a low-confidence failure: `check_position` returns
`passed = false` with confidence 0.8 when the final position is absent,
and `check_force_signature` returns `passed = false` with confidence 0.6
when the force history is empty.  Neither raises. -/
theorem c2_missing_data_behaviour (step : AssemblyStep) (data : ExecutionData) :
    (getNums (step.primitive_params.getD []) "target_pose" = none →
      checkPosition step data = { passed := true, confidence := 3/10 }) ∧
    (∀ tp, getNums (step.primitive_params.getD []) "target_pose" = some tp →
      tp.length < 3 →
      checkPosition step data = { passed := true, confidence := 3/10 }) ∧
    (∀ tp, getNums (step.primitive_params.getD []) "target_pose" = some tp →
      3 ≤ tp.length → data.final_position.length < 3 →
      checkPosition step data = { passed := false, confidence := 4/5 }) ∧
    (step.success_criteria.pattern = none →
      checkForceSignature step data = { passed := true, confidence := 3/10 }) ∧
    (step.success_criteria.pattern = some "" →
      checkForceSignature step data = { passed := true, confidence := 3/10 }) ∧
    (∀ p, step.success_criteria.pattern = some p → p ≠ "" →
      data.force_history = [] →
      checkForceSignature step data = { passed := false, confidence := 3/5 }) := by
  refine ⟨?_, ?_, ?_, ?_, ?_, ?_⟩
  · intro hnone
    unfold checkPosition
    simp [hnone]
  · intro tp htp hlen
    unfold checkPosition
    simp [htp, hlen]
  · intro tp htp hlen hfp
    unfold checkPosition
    have : ¬ tp.length < 3 := by omega
    simp [htp, this, hfp]
  · intro hnone
    unfold checkForceSignature
    simp [hnone]
  · intro hempty
    unfold checkForceSignature
    simp [hempty]
  · intro p hp hpe hfh
    unfold checkForceSignature
    simp [hp, hpe, hfh]

/-- Claim C2 witness: the amended behaviour at concrete inputs — a step
with no target pose passes at confidence 0.3, and a pattern-bearing step
with an empty force history fails at confidence 0.6. -/
theorem c2_missing_data_behaviour_witness :
    checkPosition policyStep emptyTelemetry = { passed := true, confidence := 3/10 } ∧
      checkForceSignature snapStep emptyTelemetry = { passed := false, confidence := 3/5 } :=
  ⟨(c2_missing_data_behaviour policyStep emptyTelemetry).1 rfl,
   (c2_missing_data_behaviour snapStep emptyTelemetry).2.2.2.2.2 "snap_fit" rfl
     (by decide) rfl⟩

/-- Claim C8 counterexample: a monotonically rising force series whose
final sample exceeds the 15 N target still fails the press-fit check when
it has fewer than 5 samples (checks.py line 184). -/
theorem c8_short_series_counterexample :
    (checkForceSignature pressStep shortRise).passed = false := by
  decide

/-- Claim C8 amended: for every force series of at least 5 samples that
is monotonically rising (every sample-to-sample delta non-negative) and
whose final sample is at least the declared target threshold, the
press-fit force-signature check passes. -/
theorem c8_press_fit_monotone_rise_passes (step : AssemblyStep) (data : ExecutionData)
    (t : ℚ) (hpat : step.success_criteria.pattern = some "press_fit")
    (hth : step.success_criteria.threshold = some t)
    (hlen : 5 ≤ data.force_history.length)
    (hmono : ∀ g ∈ gradList data.force_history, 0 ≤ g)
    (hfinal : t ≤ (data.force_history.getLast?).getD 0) :
    (checkForceSignature step data).passed = true := by
  have hne : ¬ data.force_history.isEmpty := by
    cases hfh : data.force_history with
    | nil => rw [hfh] at hlen; simp at hlen
    | cons a l => simp
  unfold checkForceSignature
  rw [hpat]
  simp only [hne, Bool.false_eq_true, if_false, reduceIte, hth]
  unfold detectPressFit
  have hlt : ¬ data.force_history.length < 5 := by omega
  rw [if_neg hlt]
  have hgl : (gradList data.force_history).length = data.force_history.length - 1 := by
    unfold gradList
    rw [List.length_zipWith, List.length_tail]
    omega
  have hcount : (gradList data.force_history).countP (fun g => decide (-1/10 ≤ g)) =
      (gradList data.force_history).length := by
    rw [List.countP_eq_length]
    intro g hg
    have := hmono g hg
    simp only [decide_eq_true_eq]
    linarith
  have hq : ((gradList data.force_history).length : ℚ) ≠ 0 := by
    rw [hgl]
    have : 1 ≤ data.force_history.length - 1 := by omega
    exact_mod_cast by omega
  have hfrac : ((gradList data.force_history).countP (fun g => decide (-1/10 ≤ g)) : ℚ) /
      ((gradList data.force_history).length : ℚ) = 1 := by
    rw [hcount]
    exact div_self hq
  simp only [hfrac]
  have hmonoB : decide ((7:ℚ)/10 ≤ 1) = true := by norm_num
  by_cases ht0 : t = 0
  · simp [ht0]
    norm_num
  · simp only [ht0, if_neg ht0, reduceIte]
    by_cases htpos : (0:ℚ) < t
    · simp [htpos, hfinal]
      norm_num
    · simp [htpos]
      norm_num

/-- Claim C8 witness: a concrete rising 5-sample series reaching 20 N
passes the press-fit check with the 15 N target. -/
theorem c8_press_fit_monotone_rise_passes_witness :
    (checkForceSignature pressStep longRise).passed = true :=
  c8_press_fit_monotone_rise_passes pressStep longRise 15 rfl rfl (by decide)
    (by norm_num [gradList, longRise]) (by norm_num [longRise])

/-- Claim C10: with a declared threshold of exactly 0.0 and a target pose
present, `check_position` compares the measured distance against the
default tolerance 2.0 (Python `threshold or 2.0` treats `0.0` as falsy),
so the reported threshold is 2 and the check passes exactly when the
squared distance is at most 4 — a declared zero tolerance is never
enforced. -/
theorem c10_zero_threshold_uses_default (step : AssemblyStep) (data : ExecutionData)
    (tp : List ℚ) (hth : step.success_criteria.threshold = some 0)
    (htp : getNums (step.primitive_params.getD []) "target_pose" = some tp)
    (hlen : 3 ≤ tp.length) (hfp : 3 ≤ data.final_position.length) :
    (checkPosition step data).threshold = some 2 ∧
      ((checkPosition step data).passed = true ↔
        posDistSq tp data.final_position ≤ 4) := by
  unfold checkPosition
  have h1 : ¬ tp.length < 3 := by omega
  have h2 : ¬ data.final_position.length < 3 := by omega
  simp only [htp, h1, h2, hth, if_neg h1, if_neg h2, reduceIte, if_pos rfl]
  constructor
  · trivial
  · simp only [decide_eq_true_eq]
    constructor
    · rintro ⟨-, h⟩
      norm_num at h
      exact h
    · intro h
      refine ⟨by norm_num, by norm_num; exact h⟩

/-- Claim C10 witness: a position error of 1 against a declared zero
tolerance still passes, compared against the default tolerance 2. -/
theorem c10_zero_threshold_uses_default_witness :
    (checkPosition zeroTolStep offByOneTelemetry).threshold = some 2 ∧
      (checkPosition zeroTolStep offByOneTelemetry).passed = true := by
  have h := c10_zero_threshold_uses_default zeroTolStep offByOneTelemetry [0, 0, 0]
    rfl rfl (by decide) (by decide)
  exact ⟨h.1, h.2.mpr (by norm_num [posDistSq, offByOneTelemetry])⟩

/-- Claim C6: the planner's classification of an assemble step follows the
claimed fixed precedence exactly.  The hypothesis pins the data-model
convention that a cylinder's dimensions are `[radius, height]` (models.py
line 39); the code reads the radius as `dims[0]` behind a `len(dims) >= 2`
guard, so the two chains agree on every part whose (defaulted) dimensions
satisfy it. -/
theorem c6_classification_precedence (p : Part) (contacts : List String)
    (hdims : effGeo p = "cylinder" → 2 ≤ (effDims p).length) :
    classifyAssemblyAction p contacts = claimClassify p contacts := by
  unfold classifyAssemblyAction claimClassify
  by_cases hg : effGeo p = "cylinder"
  · have hd := hdims hg
    by_cases hc : contacts = []
    · simp [hg, hc, hd]
    · by_cases hr : (effDims p).headD 0 < 8/1000
      · simp [hg, hc, hd, hr]
      · simp [hg, hc, hd, hr]
  · simp [hg]

/-- Claim C6 witness: a small contacted cylinder (`[radius, height]` =
[4 mm, 20 mm]) is classified policy + classifier by both chains. -/
theorem c6_classification_precedence_witness :
    classifyAssemblyAction pinPart ["housing"] = claimClassify pinPart ["housing"] ∧
      classifyAssemblyAction pinPart ["housing"] =
        ("policy", none, { type := "classifier" }) :=
  ⟨c6_classification_precedence pinPart ["housing"] (fun _ => by decide), by
    have hgeo : effGeo pinPart = "cylinder" := by decide
    have hd : effDims pinPart = [4/1000, 2/100] := rfl
    unfold classifyAssemblyAction
    rw [hgeo, hd]
    norm_num⟩

/-! ### Order lemmas for the code-point comparator -/

theorem charsLt_irrefl (a : List Char) : charsLt a a = false := by
  induction a with
  | nil => rfl
  | cons x xs ih => simp [charsLt, ih]

theorem charsLt_trans {a b c : List Char} (h1 : charsLt a b = true)
    (h2 : charsLt b c = true) : charsLt a c = true := by
  induction a generalizing b c with
  | nil =>
    cases b with
    | nil => simp [charsLt] at h1
    | cons y ys =>
      cases c with
      | nil => simp [charsLt] at h2
      | cons z zs => rfl
  | cons x xs ih =>
    cases b with
    | nil => simp [charsLt] at h1
    | cons y ys =>
      cases c with
      | nil => simp [charsLt] at h2
      | cons z zs =>
        simp only [charsLt] at h1 h2 ⊢
        split_ifs at h1 h2 ⊢ <;>
          first
            | rfl
            | omega
            | exact ih h1 h2

theorem charsLt_connex (a b : List Char) :
    charsLt a b = true ∨ charsLt b a = true ∨ a = b := by
  induction a generalizing b with
  | nil =>
    cases b with
    | nil => right; right; rfl
    | cons y ys => left; rfl
  | cons x xs ih =>
    cases b with
    | nil => right; left; rfl
    | cons y ys =>
      rcases Nat.lt_trichotomy x.toNat y.toNat with hxy | hxy | hxy
      · left; simp [charsLt, hxy]
      · have hx : x = y := Char.eq_of_val_eq (UInt32.ext hxy)
        rcases ih ys with h | h | h
        · left; simp [charsLt, hxy, h]
        · right; left; simp [charsLt, hxy.symm, h]
        · right; right; rw [hx, h]
      · right; left; simp [charsLt, hxy]

theorem charsLt_asymm {a b : List Char} (h : charsLt a b = true) :
    charsLt b a = false := by
  by_contra hc
  simp only [Bool.not_eq_false] at hc
  have h2 := charsLt_trans h hc
  rw [charsLt_irrefl] at h2
  exact Bool.false_ne_true h2

theorem strLeB_refl (a : String) : strLeB a a = true := by
  unfold strLeB strLtB
  simp [charsLt_irrefl]

theorem strLeB_total (a b : String) : (strLeB a b || strLeB b a) = true := by
  unfold strLeB strLtB
  rcases charsLt_connex a.data b.data with h | h | h
  · rw [charsLt_asymm h]
    simp
  · rw [charsLt_asymm h]
    simp
  · rw [h, charsLt_irrefl]
    simp

theorem strLeB_trans {a b c : String} (h1 : strLeB a b = true)
    (h2 : strLeB b c = true) : strLeB a c = true := by
  unfold strLeB strLtB at h1 h2 ⊢
  simp only [Bool.not_eq_true'] at h1 h2
  simp only [Bool.not_eq_true']
  by_contra hc
  simp only [Bool.not_eq_false] at hc
  rcases charsLt_connex a.data b.data with g | g | g
  · have := charsLt_trans hc g
    rw [h2] at this
    exact Bool.false_ne_true this
  · rw [h1] at g
    exact Bool.false_ne_true g
  · rw [g] at hc
    rw [h2] at hc
    exact Bool.false_ne_true hc

theorem sortStrs_perm (l : List String) : (sortStrs l).Perm l :=
  List.perm_insertionSort _ l

theorem sortStrs_sorted (l : List String) :
    List.Pairwise (fun a b => strLeB a b = true) (sortStrs l) := by
  haveI : IsTotal String (fun a b => strLeB a b = true) :=
    ⟨fun a b => Bool.or_eq_true _ _ |>.mp (strLeB_total a b)⟩
  haveI : IsTrans String (fun a b => strLeB a b = true) :=
    ⟨fun _ _ _ h1 h2 => strLeB_trans h1 h2⟩
  exact List.sorted_insertionSort _ l

/-! ### Dict and counting lemmas for the topological sort -/

theorem find?_eq_of_mem_nodup {ns : NodeList} (hk : (keysOf ns).Nodup)
    {p : String × List String} (hp : p ∈ ns) :
    ns.find? (fun q => q.1 == p.1) = some p := by
  induction ns with
  | nil => cases hp
  | cons a tl ih =>
    rcases List.mem_cons.mp hp with rfl | hptl
    · simp [List.find?_cons]
    · have hne : a.1 ≠ p.1 := by
        intro he
        have : p.1 ∈ keysOf tl := List.mem_map.mpr ⟨p, hptl, rfl⟩
        rw [← he] at this
        exact (List.nodup_cons.mp hk).1 this
      rw [List.find?_cons_of_neg _ (by simp [hne])]
      exact ih (List.nodup_cons.mp hk).2 hptl

theorem depsOf_eq_of_mem {ns : NodeList} (hk : (keysOf ns).Nodup)
    {p : String × List String} (hp : p ∈ ns) : depsOf ns p.1 = p.2 := by
  unfold depsOf
  rw [find?_eq_of_mem_nodup hk hp]

theorem depsOf_of_not_mem {ns : NodeList} {k : String} (h : k ∉ keysOf ns) :
    depsOf ns k = [] := by
  unfold depsOf
  have : ns.find? (fun q => q.1 == k) = none := by
    rw [List.find?_eq_none]
    intro p hp hbeq
    exact h (List.mem_map.mpr ⟨p, hp, by simpa using hbeq⟩)
  rw [this]

theorem mem_childrenCore {ns : NodeList} {c d : String} (h : c ∈ childrenCore ns d) :
    ∃ p ∈ ns, p.1 = c ∧ 0 < p.2.count d := by
  unfold childrenCore at h
  rcases List.mem_flatMap.mp h with ⟨p, hp, hc⟩
  rcases List.eq_of_mem_replicate hc with rfl
  refine ⟨p, hp, rfl, ?_⟩
  by_contra h0
  push_neg at h0
  interval_cases hcd : p.2.count d
  simp [hcd] at hc

theorem childrenCore_subset_keys {ns : NodeList} {c d : String}
    (h : c ∈ childrenCore ns d) : c ∈ keysOf ns := by
  rcases mem_childrenCore h with ⟨p, hp, rfl, -⟩
  exact List.mem_map.mpr ⟨p, hp, rfl⟩

theorem count_childrenCore {ns : NodeList} (hk : (keysOf ns).Nodup)
    (d k : String) : (childrenCore ns d).count k = (depsOf ns k).count d := by
  induction ns with
  | nil => rfl
  | cons p tl ih =>
    have hk' : (keysOf tl).Nodup := (List.nodup_cons.mp hk).2
    have hp1 : p.1 ∉ keysOf tl := (List.nodup_cons.mp hk).1
    unfold childrenCore
    rw [List.flatMap_cons, List.count_append]
    by_cases he : p.1 = k
    · subst he
      have hdeps : depsOf (p :: tl) p.1 = p.2 :=
        depsOf_eq_of_mem hk (List.mem_cons_self p tl)
      have hzero : (childrenCore tl d).count p.1 = 0 := by
        rw [List.count_eq_zero]
        intro hmem
        exact hp1 (childrenCore_subset_keys hmem)
      unfold childrenCore at hzero
      rw [hzero, hdeps, List.count_replicate]
      simp
    · have hdeps : depsOf (p :: tl) k = depsOf tl k := by
        unfold depsOf
        rw [List.find?_cons_of_neg _ (by simp [he])]
      have hrep : (List.replicate (p.2.count d) p.1).count k = 0 := by
        rw [List.count_replicate, if_neg (by simp [he])]
      rw [hdeps, hrep, Nat.zero_add]
      exact ih hk'

/-- Splitting a `countP` at a distinguished element: if `p` holds at `a`
where `q` does not, and they agree elsewhere, `p`-count = `q`-count plus
the multiplicity of `a`. -/
theorem countP_split {l : List String} {p q : String → Bool} {a : String}
    (hpa : p a = true) (hqa : q a = false)
    (hagree : ∀ b, b ≠ a → p b = q b) :
    l.countP p = l.countP q + l.count a := by
  induction l with
  | nil => rfl
  | cons b tl ih =>
    rw [List.countP_cons, List.countP_cons, List.count_cons]
    by_cases hb : b = a
    · subst hb
      rw [hpa, hqa]
      simp [ih]
      omega
    · rw [hagree b hb]
      have : (if (b == a) = true then 1 else 0) = 0 := by simp [hb]
      rw [this]
      omega

theorem missingCount_append_node {ns : NodeList} {done : List String}
    {node : String} (hnk : node ∈ keysOf ns) (hnd : node ∉ done) (k : String) :
    missingCount ns done k =
      missingCount ns (done ++ [node]) k + (depsOf ns k).count node := by
  unfold missingCount
  refine countP_split ?_ ?_ ?_
  · simp [hnk, hnd]
  · simp
  · intro b hb
    have h1 : (done ++ [node]).contains b = (done.contains b || [node].contains b) := by
      simp [List.contains_eq_any_beq]
    have h2 : [node].contains b = false := by
      rw [← Bool.not_eq_true]
      simp [hb]
    rw [h1, h2, Bool.or_false]

theorem missingCount_zero_iff {ns : NodeList} {done : List String} {k : String} :
    missingCount ns done k = 0 ↔
      ∀ d ∈ depsOf ns k, d ∈ keysOf ns → d ∈ done := by
  unfold missingCount
  rw [List.countP_eq_zero]
  constructor
  · intro h d hd hdk
    have := h d hd
    simp only [Bool.and_eq_true, Bool.not_eq_true', not_and] at this
    have h2 := this (by simpa using hdk)
    simpa using h2
  · intro h d hd
    simp only [Bool.and_eq_true, Bool.not_eq_true', not_and]
    intro hdk
    simpa using h d hd (by simpa using hdk)

theorem missingCount_zero_mono {ns : NodeList} {done done' : List String}
    {k : String} (hsub : ∀ x ∈ done, x ∈ done')
    (h : missingCount ns done k = 0) : missingCount ns done' k = 0 := by
  rw [missingCount_zero_iff] at h ⊢
  exact fun d hd hdk => hsub d (h d hd hdk)

theorem mem_zeroInDeg {ns : NodeList} {done : List String} {k : String} :
    k ∈ zeroInDeg ns done ↔
      k ∈ keysOf ns ∧ k ∉ done ∧ missingCount ns done k = 0 := by
  unfold zeroInDeg
  rw [List.mem_filter, missingCount_zero_iff]
  constructor
  · rintro ⟨hkk, hb⟩
    simp only [Bool.and_eq_true, Bool.not_eq_true', List.all_eq_true] at hb
    refine ⟨hkk, by simpa using hb.1, ?_⟩
    intro d hd hdk
    have := hb.2 d hd
    simp only [Bool.or_eq_true, Bool.not_eq_true'] at this
    rcases this with h | h
    · exact absurd (by simpa using hdk) (by simpa using h)
    · simpa using h
  · rintro ⟨hkk, hkd, hmc⟩
    refine ⟨hkk, ?_⟩
    simp only [Bool.and_eq_true, Bool.not_eq_true', List.all_eq_true]
    refine ⟨by simpa using hkd, ?_⟩
    intro d hd
    simp only [Bool.or_eq_true, Bool.not_eq_true']
    by_cases hdk : d ∈ keysOf ns
    · right
      simpa using hmc d hd hdk
    · left
      simpa using hdk

theorem missingCount_nil (ns : NodeList) (k : String) :
    missingCount ns [] k = (depsOf ns k).countP (fun d => (keysOf ns).contains d) := by
  unfold missingCount
  apply List.countP_congr
  intro d _
  simp

theorem degFun_eq_missingCount_nil (ns : NodeList) (k : String) :
    degFun ns k = (missingCount ns [] k : Int) := by
  rw [missingCount_nil]
  rfl

/-! ### The Kahn loop invariant -/

/-- Processing the sorted children of a popped node preserves the loop
invariant: starting from a degree table that counts the missing
dependencies *plus* the still-unprocessed occurrences in `cs`, the fold
ends with the degree table counting exactly the missing dependencies
w.r.t. the extended result `res'`, and every id appended to the queue is
an unemitted key all of whose in-dict dependencies are emitted. -/
theorem foldChildren_inv {ns : NodeList} (res' : List String) :
    ∀ (cs : List String) (deg : String → Int) (qa : List String),
      (∀ k ∈ keysOf ns, deg k = (missingCount ns res' k : Int) + (cs.count k : Int)) →
      qa.Nodup →
      (∀ q ∈ qa, q ∈ keysOf ns ∧ q ∉ res' ∧ missingCount ns res' q = 0 ∧ cs.count q = 0) →
      (∀ c ∈ cs, c ∈ keysOf ns ∧ c ∉ res') →
      (∀ k ∈ keysOf ns, (cs.foldl processChild (deg, qa)).1 k = (missingCount ns res' k : Int)) ∧
        (cs.foldl processChild (deg, qa)).2.Nodup ∧
        (∀ q ∈ (cs.foldl processChild (deg, qa)).2,
          q ∈ keysOf ns ∧ q ∉ res' ∧ missingCount ns res' q = 0) := by
  intro cs
  induction cs with
  | nil =>
    intro deg qa hdeg hqaN hqa _
    refine ⟨?_, hqaN, ?_⟩
    · intro k hkk
      simpa using hdeg k hkk
    · intro q hq
      exact ⟨(hqa q hq).1, (hqa q hq).2.1, (hqa q hq).2.2.1⟩
  | cons c cs' ih =>
    intro deg qa hdeg hqaN hqa hcs
    obtain ⟨hck, hcr⟩ := hcs c (List.mem_cons_self c cs')
    rw [List.foldl_cons]
    have hpc : processChild (deg, qa) c =
        (decDeg deg c, if decDeg deg c c == 0 then qa ++ [c] else qa) := rfl
    rw [hpc]
    set deg2 := decDeg deg c with hdeg2
    have hdeg2c : deg2 c = deg c - 1 := by simp [hdeg2, decDeg]
    have hdeg2ne : ∀ k, k ≠ c → deg2 k = deg k := by
      intro k hkc
      simp [hdeg2, decDeg, hkc]
    have hdeg' : ∀ k ∈ keysOf ns, deg2 k = (missingCount ns res' k : Int) + (cs'.count k : Int) := by
      intro k hkk
      by_cases hkc : k = c
      · subst hkc
        rw [hdeg2c, hdeg k hkk, List.count_cons_self]
        push_cast
        ring
      · rw [hdeg2ne k hkc, hdeg k hkk, List.count_cons_of_ne (by simpa using hkc)]
    have hcs' : ∀ x ∈ cs', x ∈ keysOf ns ∧ x ∉ res' :=
      fun x hx => hcs x (List.mem_cons_of_mem c hx)
    by_cases hz : deg2 c = 0
    · have hzb : (deg2 c == 0) = true := by simpa using hz
      rw [if_pos hzb]
      have hsplit : missingCount ns res' c = 0 ∧ cs'.count c = 0 := by
        have := hdeg' c hck
        rw [hz] at this
        constructor <;> omega
      have hcqa : c ∉ qa := by
        intro hcin
        have := (hqa c hcin).2.2.2
        rw [List.count_cons_self] at this
        omega
      have hqaN' : (qa ++ [c]).Nodup := by
        rw [List.nodup_append]
        exact ⟨hqaN, List.nodup_singleton c, by
          intro a ha hac
          rw [List.mem_singleton] at hac
          subst hac
          exact hcqa ha⟩
      have hqa' : ∀ q ∈ qa ++ [c],
          q ∈ keysOf ns ∧ q ∉ res' ∧ missingCount ns res' q = 0 ∧ cs'.count q = 0 := by
        intro q hq
        rcases List.mem_append.mp hq with hq | hq
        · obtain ⟨h1, h2, h3, h4⟩ := hqa q hq
          have hqc : q ≠ c := by
            intro he
            subst he
            rw [List.count_cons_self] at h4
            omega
          refine ⟨h1, h2, h3, ?_⟩
          rw [List.count_cons_of_ne (by simpa using hqc)] at h4
          exact h4
        · rw [List.mem_singleton] at hq
          subst hq
          exact ⟨hck, hcr, hsplit.1, hsplit.2⟩
      exact ih deg2 (qa ++ [c]) hdeg' hqaN' hqa' hcs'
    · have hzb : (deg2 c == 0) = false := by simpa using hz
      rw [if_neg (by simp [hzb])]
      have hqa' : ∀ q ∈ qa,
          q ∈ keysOf ns ∧ q ∉ res' ∧ missingCount ns res' q = 0 ∧ cs'.count q = 0 := by
        intro q hq
        obtain ⟨h1, h2, h3, h4⟩ := hqa q hq
        have hqc : q ≠ c := by
          intro he
          subst he
          rw [List.count_cons_self] at h4
          omega
        refine ⟨h1, h2, h3, ?_⟩
        rw [List.count_cons_of_ne (by simpa using hqc)] at h4
        exact h4
      exact ih deg2 qa hdeg' hqaN hqa' hcs'

theorem take_append_singleton {α : Type} (res : List α) (node : α) {i : Nat}
    (h : i ≤ res.length) : (res ++ [node]).take i = res.take i := by
  rw [List.take_append_eq_append_take]
  have : i - res.length = 0 := by omega
  rw [this]
  simp

theorem nodup_get_not_mem_take {l : List String} (hn : l.Nodup) (i : Nat)
    (h : i < l.length) : l.get ⟨i, h⟩ ∉ l.take i := by
  intro hmem
  obtain ⟨j, hj, hje⟩ := List.getElem_of_mem hmem
  have hjlen : j < l.length := lt_of_lt_of_le (by
    have := hj
    rw [List.length_take] at this
    omega) le_rfl
  rw [List.getElem_take] at hje
  have hji : j = i := by
    have := (@List.Nodup.getElem_inj_iff _ _ hn j hjlen i h).mp (by simpa using hje)
    exact this
  rw [List.length_take] at hj
  omega

/-- Appending a node all of whose in-dict dependencies are emitted keeps
the "dependencies strictly earlier" property of the result list. -/
theorem positional_append {ns : NodeList} {res : List String} {node : String}
    (hpos : ∀ i (h : i < res.length),
      missingCount ns (res.take i) (res.get ⟨i, h⟩) = 0)
    (hnode : missingCount ns res node = 0) :
    ∀ i (h : i < (res ++ [node]).length),
      missingCount ns ((res ++ [node]).take i) ((res ++ [node]).get ⟨i, h⟩) = 0 := by
  intro i h
  rw [List.length_append, List.length_singleton] at h
  by_cases hi : i < res.length
  · have hget : (res ++ [node]).get ⟨i, by rw [List.length_append]; omega⟩ =
        res.get ⟨i, hi⟩ := by
      simp [List.getElem_append_left hi]
    rw [hget, take_append_singleton res node (by omega)]
    exact hpos i hi
  · have hie : i = res.length := by omega
    subst hie
    have hget : (res ++ [node]).get ⟨res.length, by simp⟩ = node := by
      simp
    rw [hget, take_append_singleton res node le_rfl, List.take_length]
    exact hnode

/-- The Kahn loop only appends to the running result. -/
theorem kahnLoop_extends (children : String → List String) :
    ∀ (fuel : Nat) (deg : String → Int) (queue res : List String),
      ∃ ext, kahnLoop children fuel deg queue res = res ++ ext := by
  intro fuel
  induction fuel with
  | zero => exact fun deg queue res => ⟨[], by simp [kahnLoop]⟩
  | succ n ih =>
    intro deg queue res
    cases queue with
    | nil => exact ⟨[], by simp [kahnLoop]⟩
    | cons node rest =>
      obtain ⟨ext, hext⟩ := ih
        ((sortStrs (children node)).foldl processChild (deg, rest)).1
        ((sortStrs (children node)).foldl processChild (deg, rest)).2
        (res ++ [node])
      refine ⟨[node] ++ ext, ?_⟩
      rw [show kahnLoop children (n + 1) deg (node :: rest) res =
        kahnLoop children n
          ((sortStrs (children node)).foldl processChild (deg, rest)).1
          ((sortStrs (children node)).foldl processChild (deg, rest)).2
          (res ++ [node]) from rfl, hext, List.append_assoc]

/-- The central invariant of `kahnLoop`: starting from any state in which
the degree table counts missing dependencies, the queue holds unemitted
ready keys, and the emitted prefix is a duplicate-free list of keys whose
dependencies appear strictly earlier, the final result keeps all three
properties. -/
theorem kahnLoop_invariant {ns : NodeList} (hk : (keysOf ns).Nodup) :
    ∀ (fuel : Nat) (deg : String → Int) (queue res : List String),
      (∀ k ∈ keysOf ns, deg k = (missingCount ns res k : Int)) →
      res.Nodup →
      (∀ x ∈ res, x ∈ keysOf ns) →
      (∀ i (h : i < res.length), missingCount ns (res.take i) (res.get ⟨i, h⟩) = 0) →
      queue.Nodup →
      (∀ q ∈ queue, q ∈ keysOf ns ∧ q ∉ res ∧ missingCount ns res q = 0) →
      (kahnLoop (childrenOf ns) fuel deg queue res).Nodup ∧
        (∀ x ∈ kahnLoop (childrenOf ns) fuel deg queue res, x ∈ keysOf ns) ∧
        (∀ i (h : i < (kahnLoop (childrenOf ns) fuel deg queue res).length),
          missingCount ns ((kahnLoop (childrenOf ns) fuel deg queue res).take i)
            ((kahnLoop (childrenOf ns) fuel deg queue res).get ⟨i, h⟩) = 0) := by
  intro fuel
  induction fuel with
  | zero =>
    intro deg queue res hdeg hresN hresK hpos hqN hq
    exact ⟨hresN, hresK, hpos⟩
  | succ n ih =>
    intro deg queue res hdeg hresN hresK hpos hqN hq
    cases queue with
    | nil => exact ⟨hresN, hresK, hpos⟩
    | cons node rest =>
      obtain ⟨hnk, hnr, hnmc⟩ := hq node (List.mem_cons_self node rest)
      have hstep : kahnLoop (childrenOf ns) (n + 1) deg (node :: rest) res =
          kahnLoop (childrenOf ns) n
            ((sortStrs (childrenOf ns node)).foldl processChild (deg, rest)).1
            ((sortStrs (childrenOf ns node)).foldl processChild (deg, rest)).2
            (res ++ [node]) := rfl
      rw [hstep]
      set cs := sortStrs (childrenOf ns node) with hcs
      have hcsperm : cs.Perm (childrenOf ns node) := sortStrs_perm _
      have hchild : childrenOf ns node = childrenCore ns node := by
        unfold childrenOf
        rw [if_pos (by simpa using hnk)]
      -- facts about the children occurrences
      have hmemcs : ∀ c ∈ cs, c ∈ keysOf ns ∧ node ∈ depsOf ns c := by
        intro c hc
        have hc2 : c ∈ childrenCore ns node := by
          rw [← hchild]
          exact hcsperm.mem_iff.mp hc
        obtain ⟨p, hp, rfl, hcnt⟩ := mem_childrenCore hc2
        refine ⟨List.mem_map.mpr ⟨p, hp, rfl⟩, ?_⟩
        rw [depsOf_eq_of_mem hk hp]
        exact List.count_pos_iff.mp hcnt
      have hcsub : ∀ c ∈ cs, c ∈ keysOf ns ∧ c ∉ res ++ [node] := by
        intro c hc
        obtain ⟨hck, hcdep⟩ := hmemcs c hc
        refine ⟨hck, ?_⟩
        intro hmem
        rcases List.mem_append.mp hmem with hcres | hcnode
        · obtain ⟨i, hi, hie⟩ := List.getElem_of_mem hcres
          have := hpos i hi
          rw [show res.get ⟨i, hi⟩ = res[i] from rfl, hie] at this
          have hnode_in : node ∈ res.take i :=
            missingCount_zero_iff.mp this node hcdep hnk
          exact hnr (List.take_subset i res hnode_in)
        · rw [List.mem_singleton] at hcnode
          have := missingCount_zero_iff.mp hnmc node (hcnode ▸ hcdep) hnk
          exact hnr this
      have hcount : ∀ k, cs.count k = (depsOf ns k).count node := by
        intro k
        rw [hcsperm.count_eq, hchild]
        exact count_childrenCore hk node k
      -- invariants for the extended result
      have hresN' : (res ++ [node]).Nodup := by
        rw [List.nodup_append]
        exact ⟨hresN, List.nodup_singleton node, by
          intro a ha han
          rw [List.mem_singleton] at han
          subst han
          exact hnr ha⟩
      have hresK' : ∀ x ∈ res ++ [node], x ∈ keysOf ns := by
        intro x hx
        rcases List.mem_append.mp hx with hx | hx
        · exact hresK x hx
        · rw [List.mem_singleton] at hx
          subst hx
          exact hnk
      have hpos' := positional_append hpos hnmc
      -- fold preconditions
      have hdeg' : ∀ k ∈ keysOf ns,
          deg k = (missingCount ns (res ++ [node]) k : Int) + (cs.count k : Int) := by
        intro k hkk
        rw [hdeg k hkk, hcount k, missingCount_append_node hnk hnr k]
        push_cast
        ring
      have hrest : ∀ q ∈ rest,
          q ∈ keysOf ns ∧ q ∉ res ++ [node] ∧ missingCount ns (res ++ [node]) q = 0 ∧
            cs.count q = 0 := by
        intro q hqr
        obtain ⟨h1, h2, h3⟩ := hq q (List.mem_cons_of_mem node hqr)
        have hqnode : q ≠ node := by
          intro he
          subst he
          exact (List.nodup_cons.mp hqN).1 hqr
        have hnodep : node ∉ depsOf ns q := by
          intro hdep
          have := missingCount_zero_iff.mp h3 node hdep hnk
          exact hnr this
        refine ⟨h1, ?_, ?_, ?_⟩
        · intro hmem
          rcases List.mem_append.mp hmem with hmem | hmem
          · exact h2 hmem
          · rw [List.mem_singleton] at hmem
            exact hqnode hmem
        · exact missingCount_zero_mono (fun x hx => List.mem_append_left _ hx) h3
        · rw [hcount q, List.count_eq_zero]
          exact hnodep
      obtain ⟨hfd, hfn, hfq⟩ := foldChildren_inv (res ++ [node]) cs deg rest
        hdeg' (List.nodup_cons.mp hqN).2 hrest hcsub
      exact ih _ _ _ hfd hresN' hresK' hpos' hfn hfq

/-- Claim C4 counterexample: the sort is *not* repeated removal of the
lexicographically smallest zero-in-degree id.  On the dict
`{a: deps [b], b: [], c: []}` the code returns `[b, c, a]` (FIFO queue:
`a` is appended after `c`), whereas the claimed rule must pick `a` at
position 1, since `a < c` and both have in-degree 0 once `b` is emitted. -/
theorem c4_fifo_not_min_counterexample :
    kahn fifoNodes = Except.ok ["b", "c", "a"] ∧
      ¬ isMinSelectOrder fifoNodes ["b", "c", "a"] :=
  ⟨rfl, by decide⟩

/-- Claim C4 amended: the order is produced by Kahn's algorithm with a
FIFO queue (seeded with the lexicographically sorted zero-in-degree ids;
newly freed children appended in lexicographic order), so at every
position the emitted id is *some* zero-in-degree id remaining at that
point — each id appears at most once and all its in-dict dependencies
appear strictly earlier — and at the *first* position it is the
lexicographic minimum of the initially zero-in-degree ids; at later
positions it need not be the lexicographic minimum. -/
theorem c4_fifo_kahn_topological (ns : NodeList) (r : List String)
    (hk : (keysOf ns).Nodup) (hok : kahn ns = Except.ok r) :
    (∀ i (h : i < r.length), r.get ⟨i, h⟩ ∈ zeroInDeg ns (r.take i)) ∧
      (∀ h0, r.head? = some h0 →
        h0 ∈ zeroInDeg ns [] ∧ ∀ x ∈ zeroInDeg ns [], strLeB h0 x = true) := by
  have hq0f : ∀ x, x ∈ (keysOf ns).filter (fun k => degFun ns k == 0) ↔
      x ∈ zeroInDeg ns [] := by
    intro x
    rw [List.mem_filter, mem_zeroInDeg]
    have hbq : (degFun ns x == 0) = true ↔ missingCount ns [] x = 0 := by
      rw [degFun_eq_missingCount_nil, beq_iff_eq]
      exact Int.natCast_eq_zero
    constructor
    · rintro ⟨h1, h2⟩
      exact ⟨h1, by simp, hbq.mp h2⟩
    · rintro ⟨h1, -, h2⟩
      exact ⟨h1, hbq.mpr h2⟩
  have hrL : r = kahnLoop (childrenOf ns) (ns.length + 1) (degFun ns)
      (sortStrs ((keysOf ns).filter (fun k => degFun ns k == 0))) [] := by
    simp only [kahn] at hok
    by_cases hlen : (kahnLoop (childrenOf ns) (ns.length + 1) (degFun ns)
        (sortStrs ((keysOf ns).filter (fun k => degFun ns k == 0))) []).length =
        ns.length
    · rw [if_pos hlen] at hok
      exact (Except.ok.inj hok).symm
    · rw [if_neg hlen] at hok
      cases hok
  set q0 := sortStrs ((keysOf ns).filter (fun k => degFun ns k == 0)) with hq0def
  have hq0perm : q0.Perm ((keysOf ns).filter (fun k => degFun ns k == 0)) :=
    sortStrs_perm _
  have hq0N : q0.Nodup := hq0perm.nodup_iff.mpr (hk.filter _)
  have hq0mem : ∀ q ∈ q0, q ∈ keysOf ns ∧ q ∉ ([] : List String) ∧
      missingCount ns [] q = 0 := by
    intro q hq
    have := (hq0f q).mp (hq0perm.mem_iff.mp hq)
    rw [mem_zeroInDeg] at this
    exact this
  have hdeg0 : ∀ k ∈ keysOf ns, degFun ns k = (missingCount ns [] k : Int) :=
    fun k _ => degFun_eq_missingCount_nil ns k
  obtain ⟨hN, hK, hpos⟩ := kahnLoop_invariant hk (ns.length + 1) (degFun ns) q0 []
    hdeg0 List.nodup_nil (by simp) (by simp) hq0N hq0mem
  rw [← hrL] at hN hK hpos
  constructor
  · intro i h
    rw [mem_zeroInDeg]
    exact ⟨hK _ (List.get_mem r i h), nodup_get_not_mem_take hN i h, hpos i h⟩
  · intro h0 hh0
    have hsorted := sortStrs_sorted ((keysOf ns).filter (fun k => degFun ns k == 0))
    rw [← hq0def] at hsorted
    cases hq0 : q0 with
    | nil =>
      rw [hq0] at hrL
      have hre : r = [] := by
        rw [hrL]
        rfl
      rw [hre] at hh0
      cases hh0
    | cons nd rest =>
      have hrhead : r.head? = some nd := by
        rw [hq0] at hrL
        obtain ⟨ext, hext⟩ := kahnLoop_extends (childrenOf ns) ns.length
          ((sortStrs (childrenOf ns nd)).foldl processChild (degFun ns, rest)).1
          ((sortStrs (childrenOf ns nd)).foldl processChild (degFun ns, rest)).2
          [nd]
        have hstep : kahnLoop (childrenOf ns) (ns.length + 1) (degFun ns) (nd :: rest) [] =
            kahnLoop (childrenOf ns) ns.length
              ((sortStrs (childrenOf ns nd)).foldl processChild (degFun ns, rest)).1
              ((sortStrs (childrenOf ns nd)).foldl processChild (degFun ns, rest)).2
              [nd] := rfl
        rw [hrL, hstep, hext]
        rfl
      have hnd0 : h0 = nd := by
        rw [hrhead] at hh0
        exact (Option.some.inj hh0).symm
      subst hnd0
      have hndq0 : h0 ∈ q0 := by
        rw [hq0]
        exact List.mem_cons_self _ _
      refine ⟨(hq0f h0).mp (hq0perm.mem_iff.mp hndq0), ?_⟩
      intro x hx
      have hxq0 : x ∈ q0 := hq0perm.mem_iff.mpr ((hq0f x).mpr hx)
      rw [hq0] at hxq0 hsorted
      rcases List.mem_cons.mp hxq0 with rfl | hxrest
      · exact strLeB_refl x
      · exact (List.pairwise_cons.mp hsorted).1 x hxrest

/-- Claim C4 amended witness: the general theorem applied to the concrete
counterexample dict — position 1 holds a zero-in-degree id (`c`) and
position 0 holds the lexicographic minimum (`b`) of the initial
zero-in-degree ids. -/
theorem c4_fifo_kahn_topological_witness :
    "c" ∈ zeroInDeg fifoNodes ["b"] ∧ "b" ∈ zeroInDeg fifoNodes [] ∧
      strLeB "b" "c" = true := by
  have h := c4_fifo_kahn_topological fifoNodes ["b", "c", "a"] (by decide) rfl
  have hb := h.2 "b" rfl
  exact ⟨h.1 1 (by decide), hb.1, hb.2 "c" (by decide)⟩

/-- Claim C5 counterexample: a step dict whose single step lists the
unknown dependency id "ghost" is *not* rejected — neither graph
construction (the pydantic model has no cross-reference validators) nor
the topological sort (whose `if dep in steps` guard silently skips the
unknown id, lines 229-231) raises; the sort returns the usable order
`["s1"]` that silently ignores the reference. -/
theorem c5_unknown_dep_accepted_counterexample :
    topologicalSort ghostSteps = Except.ok ["s1"] := rfl

/-- Claim C5 amended: references are never validated.  The topological
sort treats dependencies that are not keys of the step catalog exactly as
if they were absent: its result is unchanged when every dependency list
is filtered down to in-catalog ids.  (Unknown part ids are likewise never
checked; no structural error is raised for either.) -/
theorem keysOf_map_filter (P : String → Bool) (l : NodeList) :
    keysOf (l.map (fun p => (p.1, p.2.filter P))) = keysOf l := by
  unfold keysOf
  rw [List.map_map]
  rfl

theorem depsOf_map_filter (P : String → Bool) (l : NodeList) (k : String) :
    depsOf (l.map (fun p => (p.1, p.2.filter P))) k = (depsOf l k).filter P := by
  unfold depsOf
  induction l with
  | nil => rfl
  | cons p tl ih =>
    rw [List.map_cons]
    by_cases hp : p.1 = k
    · rw [List.find?_cons_of_pos _ (by simp [hp]), List.find?_cons_of_pos _ (by simp [hp])]
    · rw [List.find?_cons_of_neg _ (by simp [hp]), List.find?_cons_of_neg _ (by simp [hp])]
      exact ih

theorem childrenCore_map_filter (P : String → Bool) {d : String} (hPd : P d = true)
    (l : NodeList) :
    childrenCore (l.map (fun p => (p.1, p.2.filter P))) d = childrenCore l d := by
  unfold childrenCore
  induction l with
  | nil => rfl
  | cons p tl ih =>
    rw [List.map_cons, List.flatMap_cons, List.flatMap_cons, List.count_filter hPd, ih]

theorem c5_unknown_deps_ignored (ns : NodeList) :
    kahn ns =
      kahn (ns.map (fun p => (p.1, p.2.filter (fun d => (keysOf ns).contains d)))) := by
  have hkeys := keysOf_map_filter (fun d => (keysOf ns).contains d) ns
  have hdeg : degFun (ns.map (fun p => (p.1, p.2.filter (fun d => (keysOf ns).contains d)))) =
      degFun ns := by
    funext k
    unfold degFun
    rw [hkeys, depsOf_map_filter, List.countP_filter]
    simp
  have hchild : childrenOf (ns.map (fun p => (p.1, p.2.filter (fun d => (keysOf ns).contains d)))) =
      childrenOf ns := by
    funext d
    unfold childrenOf
    rw [hkeys]
    by_cases hd : (keysOf ns).contains d = true
    · rw [if_pos (by simpa using hd), if_pos (by simpa using hd),
        childrenCore_map_filter _ hd]
    · rw [if_neg (by simpa using hd), if_neg (by simpa using hd)]
  simp only [kahn, hkeys, hdeg, hchild, List.length_map]

end Nextis
